import Mathlib

/-!
Verification of the VSCode-Sync-Tool repository against its specification.

The web dashboard (`web/app/dashboard/page.tsx`) is embedded from its
TypeScript source.  The CLI core (Snapshot Codec, Import Engine) ships in
`cli/vscode_sync/main.py`, which is not part of this source snapshot; those
components are modelled from the specification text, as marked on each
definition.
-/

/-- A JSON-compatible value as produced by `JSON.parse` / Python `json.loads`:
null, booleans, numbers, strings, arrays, and objects (ordered field lists). -/
inductive JsonVal where
  | null : JsonVal
  | bool (b : Bool) : JsonVal
  | num (n : Int) : JsonVal
  | str (s : String) : JsonVal
  | arr (xs : List JsonVal) : JsonVal
  | obj (fields : List (String × JsonVal)) : JsonVal

namespace JsonVal

/-- JavaScript `typeof v === 'object' && v !== null`: true exactly for
objects and arrays (JSON values carry no functions). -/
def isObjLike : JsonVal → Bool
  | .obj _ => true
  | .arr _ => true
  | _ => false

/-- The JavaScript `in` operator for the non-numeric property names used by
the dashboard (`'editor.fontSize' in obj`, `'settings' in obj`): membership
among an object's own keys; such names are never own properties of a JSON
array or of a primitive. -/
def hasKey : JsonVal → String → Bool
  | .obj fs, k => fs.any (fun p => p.1 = k)
  | _, _ => false

/-- JavaScript property access `json[k]` on a parsed JSON value, for the
non-numeric keys used by the dashboard. -/
def getKey : JsonVal → String → Option JsonVal
  | .obj fs, k => (fs.find? (fun p => p.1 = k)).map (fun p => p.2)
  | _, _ => none

end JsonVal

/-! ## Web dashboard (`web/app/dashboard/page.tsx`) -/

/-- The three setting keys the dashboard's heuristic looks for. -/
def magicSettingKeys : List String :=
  ["editor.fontSize", "workbench.colorTheme", "files.autoSave"]

/-- `looksLikeVSCodeSettings` from `page.tsx`: a non-null object carrying at
least one of the three well-known setting keys. -/
def looksLikeVSCodeSettings (obj : JsonVal) : Bool :=
  obj.isObjLike &&
    (obj.hasKey "editor.fontSize" || obj.hasKey "workbench.colorTheme" ||
      obj.hasKey "files.autoSave")

/-- `isValidVSCodeSettings` from `page.tsx`: accepts a plain VSCode settings
object, or a CLI-exported object whose `settings` property is one. -/
def isValidVSCodeSettings (json : JsonVal) : Bool :=
  if looksLikeVSCodeSettings json then true
  else if json.isObjLike && json.hasKey "settings" &&
      (match json.getKey "settings" with
       | some s => looksLikeVSCodeSettings s
       | none => false) then true
  else false

/-- JavaScript `str.split(sep)` for a one-character separator, over the
character list; like JS `split`, the result is never empty (`""` splits to
`[""]`). -/
def splitChars (sep : Char) : List Char → List (List Char)
  | [] => [[]]
  | c :: rest =>
    match splitChars sep rest with
    | [] => [[c]]
    | h :: t => if c = sep then [] :: h :: t else (c :: h) :: t

/-- `file.name.split('.').pop()?.toLowerCase()`: the final dot-separated
component of a file name, lower-cased. -/
def fileExt (name : String) : String :=
  ⟨((splitChars '.' name.data).getLastD []).map Char.toLower⟩

/-- A file handed to `handleFileUpload`: its name, its raw bytes, and the
result of `JSON.parse` on its text (`none` when the text is not valid JSON).
The parse result is an abstraction of the browser's JSON parser; the raw
bytes are what `supabase.storage.upload` receives. -/
structure UploadFile where
  name : String
  content : List Nat
  parsed : Option JsonVal

/-- Observable effects of one `handleFileUpload` invocation: the error
message it set (if any), the blob handed to `supabase.storage.upload` (if
the upload was attempted), and whether an insert into the `files` table was
attempted. -/
structure UploadEffects where
  uploadError : Option String
  storageAttempt : Option UploadFile
  insertAttempt : Bool

/-- The storage-and-database tail of `handleFileUpload`, reached only after
validation passes: upload the file verbatim to storage; only if that
succeeds, insert a record into the `files` table. -/
def uploadAndRecord (f : UploadFile) (storageOk insertOk : Bool) : UploadEffects :=
  if storageOk then
    if insertOk then ⟨none, some f, true⟩
    else ⟨some "Failed to save file record.", some f, true⟩
  else ⟨some "Failed to upload file.", some f, false⟩

/-- `handleFileUpload` from `page.tsx`.  `storageOk` / `insertOk` abstract
whether the storage upload and the `files`-table insert succeed. -/
def handleFileUpload (f : UploadFile) (storageOk insertOk : Bool) : UploadEffects :=
  let ext := fileExt f.name
  if ext = "json" then
    match f.parsed with
    | none => ⟨some "Invalid JSON file.", none, false⟩
    | some json =>
      if !isValidVSCodeSettings json then
        ⟨some "Invalid VSCode settings.json file.", none, false⟩
      else uploadAndRecord f storageOk insertOk
  else if ext = "vsix" then
    uploadAndRecord f storageOk insertOk
  else
    ⟨some "Only .json (VSCode settings) and .vsix files are allowed.", none, false⟩

/-- The `accept` attribute of the dashboard's file-picker input. -/
def fileInputAccept : String := ".json,.vsix,.zip"

/-- A well-formed exported snapshot document whose settings carry none of
the keys the dashboard heuristic looks for. -/
def plainSnapshotDoc : JsonVal :=
  .obj
    [("metadata", .obj
        [("created_at", .str "2024-01-01T00:00:00"),
         ("system", .str "Linux"),
         ("vscode_sync_version", .str "1.0.0")]),
     ("extensions", .arr [.str "ms-python.python"]),
     ("settings", .obj [("editor.tabSize", .num 2)])]

/-! ## CLI core: Snapshot Codec and Import Engine

`cli/vscode_sync/main.py` is not part of this source snapshot (only its
Makefile, CI workflow and documentation are), so the Codec and the Import
Engine are modelled from the specification text, as marked on each
definition below. -/

/-- Modelled from the spec: the `metadata` block of a Snapshot —
creation timestamp, originating OS identifier, tool version. -/
structure Metadata where
  created_at : String
  system : String
  vscode_sync_version : String
  deriving DecidableEq

/-- Modelled from the spec: the portable Snapshot — metadata, an optional
ordered sequence of extension identifiers, and an optional mapping from
dotted setting key to JSON value (absence means "not requested"). -/
structure Snapshot where
  metadata : Metadata
  extensions : Option (List String)
  settings : Option (List (String × JsonVal))

/-- Modelled from the spec: decode's failure taxonomy — `FormatError` when
the document is not valid JSON, `SchemaError` when a required top-level key
is absent or of the wrong type. -/
inductive CodecError where
  | formatError : CodecError
  | schemaError : CodecError
  deriving DecidableEq

/-- Look up the first field with the given name in a JSON object field list
(keys are unique by the Snapshot invariant). -/
def lookupField (fs : List (String × JsonVal)) (k : String) : Option JsonVal :=
  (fs.find? (fun p => p.1 = k)).map (fun p => p.2)

/-- Modelled from the spec: `encode` in JSON mode writes the Snapshot as a
single JSON document with stable key order `metadata`, `extensions`,
`settings`; optional parts absent from the document when not captured. -/
def encodeDoc (s : Snapshot) : JsonVal :=
  .obj
    ([("metadata", .obj
        [("created_at", .str s.metadata.created_at),
         ("system", .str s.metadata.system),
         ("vscode_sync_version", .str s.metadata.vscode_sync_version)])]
      ++ (match s.extensions with
          | some es => [("extensions", .arr (es.map JsonVal.str))]
          | none => [])
      ++ (match s.settings with
          | some st => [("settings", .obj st)]
          | none => []))

/-- Extract a string field, failing with `SchemaError` when absent or not a
string. -/
def decodeStr (fs : List (String × JsonVal)) (k : String) : Except CodecError String :=
  match lookupField fs k with
  | some (.str v) => .ok v
  | _ => .error .schemaError

/-- Turn a JSON array of strings back into an identifier list, failing with
`SchemaError` on any non-string element. -/
def decodeStrList : List JsonVal → Except CodecError (List String)
  | [] => .ok []
  | .str v :: rest => (decodeStrList rest).map (fun vs => v :: vs)
  | _ :: _ => .error .schemaError

/-- Modelled from the spec: schema validation of a decoded document — the
`metadata` block with its three string fields is required; `extensions`
(array of strings) and `settings` (object) are optional but must be
well-typed when present; unknown extra keys are ignored. -/
def decodeDoc (doc : JsonVal) : Except CodecError Snapshot :=
  match doc with
  | .obj fs =>
    match lookupField fs "metadata" with
    | some (.obj ms) => do
      let ca ← decodeStr ms "created_at"
      let sys ← decodeStr ms "system"
      let ver ← decodeStr ms "vscode_sync_version"
      let exts ← match lookupField fs "extensions" with
        | some (.arr xs) => (decodeStrList xs).map some
        | some _ => .error .schemaError
        | none => .ok none
      let sets ← match lookupField fs "settings" with
        | some (.obj st) => .ok (some st)
        | some _ => .error .schemaError
        | none => .ok none
      .ok ⟨⟨ca, sys, ver⟩, exts, sets⟩
    | _ => .error .schemaError
  | _ => .error .schemaError

/-- A snapshot file on disk, as the decoder sees it: either a standalone
text document (with the result of parsing it as JSON, `none` when the text
is not valid JSON), or a ZIP archive of named entries each carrying such a
parse result. -/
inductive SourceFile where
  | text (parsed : Option JsonVal) : SourceFile
  | zip (entries : List (String × Option JsonVal)) : SourceFile

/-- Modelled from the spec: ZIP packaging — the JSON document as the entry
`config.json`, plus optionally the verbatim native settings file as a
second entry (opaque to the decoder). -/
def encodeZip (s : Snapshot) (rawEntry : Option (String × Option JsonVal)) :
    List (String × Option JsonVal) :=
  ("config.json", some (encodeDoc s)) :: (match rawEntry with
    | some e => [e]
    | none => [])

/-- Modelled from the spec: `decode` — detect the packaging, for ZIP read
the `config.json` entry and ignore unknown entries, then validate the JSON
document. -/
def decode : SourceFile → Except CodecError Snapshot
  | .text none => .error .formatError
  | .text (some doc) => decodeDoc doc
  | .zip entries =>
    match entries.find? (fun e => e.1 = "config.json") with
    | some (_, none) => .error .formatError
    | some (_, some doc) => decodeDoc doc
    | none => .error .formatError

/-- Whether a JSON value is a string. -/
def isStrVal : JsonVal → Bool
  | .str _ => true
  | _ => false

/-- Schema validity per the spec's words, stated independently of the
decoder: required top-level keys present and well-typed — `metadata` with
its three string fields required, `extensions` (array of strings) and
`settings` (object) optional. -/
def schemaOk (d : JsonVal) : Bool :=
  match d with
  | .obj fs =>
    (match lookupField fs "metadata" with
     | some (.obj ms) =>
         (match lookupField ms "created_at" with
          | some (.str _) => true
          | _ => false) &&
         (match lookupField ms "system" with
          | some (.str _) => true
          | _ => false) &&
         (match lookupField ms "vscode_sync_version" with
          | some (.str _) => true
          | _ => false)
     | _ => false) &&
    (match lookupField fs "extensions" with
     | some (.arr xs) => xs.all isStrVal
     | some _ => false
     | none => true) &&
    (match lookupField fs "settings" with
     | some (.obj _) => true
     | some _ => false
     | none => true)
  | _ => false

/-! ## Import Engine (modelled from the spec) -/

/-- Modelled from the spec: the shallow-overwrite merge of the snapshot's
settings into the live settings mapping (Python `dict.update` semantics on
an insertion-ordered mapping): every key present in the snapshot overwrites
the corresponding live key in place; keys absent from the snapshot are left
untouched; snapshot keys new to the live file are appended in snapshot
order. -/
def mergeSettings (live snap : List (String × JsonVal)) : List (String × JsonVal) :=
  live.map (fun p =>
    match snap.find? (fun q => q.1 = p.1) with
    | some q => (p.1, q.2)
    | none => p)
  ++ snap.filter (fun q => !live.any (fun p => p.1 = q.1))

/-- The per-entry overwrite the merge applies to the live list. -/
def overwriteWith (snap : List (String × JsonVal)) (p : String × JsonVal) :
    String × JsonVal :=
  match snap.find? (fun q => q.1 = p.1) with
  | some q => (p.1, q.2)
  | none => p

/-- Modelled from the spec: the `SettingsApply` step's file result — if the
live settings file does not exist, it is created containing exactly the
snapshot's settings; otherwise the shallow-overwrite merge. -/
def settingsApply (live : Option (List (String × JsonVal)))
    (snap : List (String × JsonVal)) : List (String × JsonVal) :=
  match live with
  | none => snap
  | some l => mergeSettings l snap

/-- Per-extension result accumulated by the `ExtensionInstall` step:
identifier, outcome, failure reason if any. -/
structure ExtResult where
  identifier : String
  ok : Bool
  reason : Option String
  deriving DecidableEq

/-- Modelled from the spec: the `ExtensionInstall` loop — each identifier
installed by a separate editor-CLI invocation (`cli`), processed
independently in snapshot order; a failure is recorded and the loop
continues. -/
def installAll (cli : String → Bool) : List String → List ExtResult
  | [] => []
  | id :: rest =>
    (if cli id then ⟨id, true, none⟩
     else ⟨id, false, some "install failed"⟩) :: installAll cli rest

/-- The live settings file and the backup file as the Import Engine sees
them: `none` means the file does not exist. -/
structure FS where
  live : Option (List (String × JsonVal))
  backup : Option (List (String × JsonVal))

/-- Filesystem writes the Import Engine performs, in order. -/
inductive FsEvent where
  | backupWrite : FsEvent
  | liveWrite : FsEvent
  deriving DecidableEq

/-- `true` when no write to the live settings file occurs before the first
backup write in the event trace. -/
def backupPrecedesMutation : List FsEvent → Bool
  | [] => true
  | .liveWrite :: _ => false
  | .backupWrite :: _ => true

/-- What one import invocation asks for: whether to take a backup (default
yes), whether to apply settings / install extensions (caller may opt out),
and the snapshot being imported. -/
structure ImportRequest where
  backup : Bool
  applySettings : Bool
  installExtensions : Bool
  snapshot : Snapshot

/-- Outcome of one import invocation: the final filesystem, the ordered
write trace, whether the import aborted, and the per-extension results. -/
structure ImportOutcome where
  fs : FS
  events : List FsEvent
  failed : Bool
  extResults : List ExtResult

/-- The `SettingsApply` and `ExtensionInstall` states, entered after the
backup decision with the filesystem and trace so far. -/
def importAfterBackup (req : ImportRequest) (fs : FS) (evs : List FsEvent)
    (cli : String → Bool) : ImportOutcome :=
  let (fs2, evs2) :=
    match req.snapshot.settings with
    | some st =>
      if req.applySettings then
        (⟨some (settingsApply fs.live st), fs.backup⟩, evs ++ [FsEvent.liveWrite])
      else (fs, evs)
    | none => (fs, evs)
  let ext :=
    match req.snapshot.extensions with
    | some es => if req.installExtensions then installAll cli es else []
    | none => []
  ⟨fs2, evs2, false, ext⟩

/-- Modelled from the spec: the Import Engine state machine
`Start → BackupDecision → SettingsApply → ExtensionInstall → Done`.
`BackupDecision`: when the caller requested a backup and a live settings
file exists, copy it to the backup path before any mutation (`backupOk`
abstracts whether that copy succeeds); failure to write the backup aborts
before touching live settings. -/
def runImport (req : ImportRequest) (fs : FS) (backupOk : Bool)
    (cli : String → Bool) : ImportOutcome :=
  if req.backup && fs.live.isSome then
    if backupOk then
      importAfterBackup req ⟨fs.live, fs.live⟩ [FsEvent.backupWrite] cli
    else ⟨fs, [], true, []⟩
  else importAfterBackup req fs [] cli




/-! ## Helper lemmas -/

lemma getKey_hasKey (j : JsonVal) (k : String) (s : JsonVal)
    (h : j.getKey k = some s) : j.hasKey k = true := by
  cases j with
  | obj fs =>
    simp only [JsonVal.getKey, Option.map_eq_some'] at h
    obtain ⟨q, hq, hv⟩ := h
    simp only [JsonVal.hasKey, List.any_eq_true]
    refine ⟨q, List.mem_of_find?_eq_some hq, ?_⟩
    simpa using List.find?_some hq
  | null => simp [JsonVal.getKey] at h
  | bool b => simp [JsonVal.getKey] at h
  | num n => simp [JsonVal.getKey] at h
  | str t => simp [JsonVal.getKey] at h
  | arr xs => simp [JsonVal.getKey] at h

lemma hasKey_isObjLike (j : JsonVal) (k : String) (h : j.hasKey k = true) :
    j.isObjLike = true := by
  cases j <;> simp_all [JsonVal.hasKey, JsonVal.isObjLike]

lemma isValid_iff (j : JsonVal) :
    isValidVSCodeSettings j = true ↔
      ((∃ k ∈ magicSettingKeys, j.hasKey k = true) ∨
        (∃ s, j.getKey "settings" = some s ∧ ∃ k ∈ magicSettingKeys, s.hasKey k = true)) := by
  constructor
  · intro h
    unfold isValidVSCodeSettings looksLikeVSCodeSettings at h
    split at h
    · rename_i hl
      simp only [Bool.and_eq_true, Bool.or_eq_true] at hl
      left
      rcases hl.2 with (h' | h') | h'
      · exact ⟨"editor.fontSize", by decide, h'⟩
      · exact ⟨"workbench.colorTheme", by decide, h'⟩
      · exact ⟨"files.autoSave", by decide, h'⟩
    · split at h
      · rename_i hn
        simp only [Bool.and_eq_true] at hn
        right
        rcases hs : j.getKey "settings" with _ | s
        · rw [hs] at hn; exact absurd hn.2 (by simp)
        · rw [hs] at hn
          refine ⟨s, rfl, ?_⟩
          have hl := hn.2
          simp only [looksLikeVSCodeSettings, Bool.and_eq_true, Bool.or_eq_true] at hl
          rcases hl.2 with (h' | h') | h'
          · exact ⟨"editor.fontSize", by decide, h'⟩
          · exact ⟨"workbench.colorTheme", by decide, h'⟩
          · exact ⟨"files.autoSave", by decide, h'⟩
      · exact absurd h (by simp)
  · intro h
    unfold isValidVSCodeSettings
    rcases h with ⟨k, hk, hkey⟩ | ⟨s, hs, k, hk, hkey⟩
    · have hl : looksLikeVSCodeSettings j = true := by
        unfold looksLikeVSCodeSettings
        have ho := hasKey_isObjLike j k hkey
        fin_cases hk <;> simp_all
      simp [hl]
    · have hsk : j.hasKey "settings" = true := getKey_hasKey j "settings" s hs
      have hl2 : looksLikeVSCodeSettings s = true := by
        unfold looksLikeVSCodeSettings
        have ho := hasKey_isObjLike s k hkey
        fin_cases hk <;> simp_all
      split
      · rfl
      · rw [if_pos]
        simp [hasKey_isObjLike j "settings" hsk, hsk, hs, hl2]

lemma snapshotShaped_invalid (fs : List (String × JsonVal)) (s : JsonVal)
    (hnames : ∀ p ∈ fs, p.1 = "metadata" ∨ p.1 = "extensions" ∨ p.1 = "settings")
    (hset : JsonVal.getKey (.obj fs) "settings" = some s)
    (hmagic : ∀ k ∈ magicSettingKeys, s.hasKey k = false) :
    isValidVSCodeSettings (.obj fs) = false := by
  rw [Bool.eq_false_iff]
  intro htrue
  rcases (isValid_iff (.obj fs)).1 htrue with ⟨k, hk, hkey⟩ | ⟨s', hs', k, hk, hkey⟩
  · simp only [JsonVal.hasKey, List.any_eq_true] at hkey
    obtain ⟨p, hp, hpk⟩ := hkey
    have hn := hnames p hp
    rw [show p.1 = k from by simpa using hpk] at hn
    fin_cases hk <;> simp_all
  · rw [hset] at hs'
    have : s' = s := by injection hs' with h; exact h.symm
    subst this
    exact absurd hkey (by simp [hmagic k hk])

/-! ## Claims about the dashboard upload path -/

/-- C8: `isValidVSCodeSettings` returns true exactly when the value is a
non-null object carrying one of the three well-known setting keys, or an
object whose `settings` property is such an object; consequently a
well-formed exported snapshot whose settings carry none of those keys is
rejected by the JSON upload validation as an invalid settings file. -/
theorem upload_validation_characterization :
    (∀ j : JsonVal, isValidVSCodeSettings j = true ↔
      ((∃ k ∈ magicSettingKeys, j.hasKey k = true) ∨
        (∃ s, j.getKey "settings" = some s ∧ ∃ k ∈ magicSettingKeys, s.hasKey k = true))) ∧
    (∀ (name : String) (bytes : List Nat) (fs : List (String × JsonVal)) (s : JsonVal)
      (storageOk insertOk : Bool),
      fileExt name = "json" →
      (∀ p ∈ fs, p.1 = "metadata" ∨ p.1 = "extensions" ∨ p.1 = "settings") →
      JsonVal.getKey (.obj fs) "settings" = some s →
      (∀ k ∈ magicSettingKeys, s.hasKey k = false) →
      handleFileUpload ⟨name, bytes, some (.obj fs)⟩ storageOk insertOk =
        ⟨some "Invalid VSCode settings.json file.", none, false⟩) := by
  refine ⟨isValid_iff, ?_⟩
  intro name bytes fs s storageOk insertOk hext hnames hset hmagic
  have hval := snapshotShaped_invalid fs s hnames hset hmagic
  simp [handleFileUpload, hext, hval]

/-- C8 witness: a concrete exported snapshot whose settings lack the three
keys is rejected. -/
theorem upload_validation_characterization_witness :
    handleFileUpload
      ⟨"export.json", [3],
        some (.obj
          [("metadata", .obj [("created_at", .str "2024-06-01"),
             ("system", .str "Darwin"), ("vscode_sync_version", .str "0.2.0")]),
           ("extensions", .arr [.str "esbenp.prettier-vscode"]),
           ("settings", .obj [("editor.tabSize", .num 2)])])⟩ true true =
      ⟨some "Invalid VSCode settings.json file.", none, false⟩ :=
  upload_validation_characterization.2 "export.json" [3]
    [("metadata", .obj [("created_at", .str "2024-06-01"),
       ("system", .str "Darwin"), ("vscode_sync_version", .str "0.2.0")]),
     ("extensions", .arr [.str "esbenp.prettier-vscode"]),
     ("settings", .obj [("editor.tabSize", .num 2)])]
    (.obj [("editor.tabSize", .num 2)]) true true
    (by decide) (by decide) rfl (by decide)

/-- C9: any file whose lower-cased final name component is neither `json`
nor `vsix` is rejected with the fixed error message, before any storage
upload or database insert — even though the file-picker `accept` attribute
advertises `.zip`. -/
theorem upload_rejects_unlisted_extensions (f : UploadFile) (storageOk insertOk : Bool)
    (h1 : fileExt f.name ≠ "json") (h2 : fileExt f.name ≠ "vsix") :
    handleFileUpload f storageOk insertOk =
      ⟨some "Only .json (VSCode settings) and .vsix files are allowed.", none, false⟩ ∧
      ".zip".data ∈ splitChars ',' fileInputAccept.data := by
  refine ⟨?_, by decide⟩
  simp [handleFileUpload, h1, h2]

/-- C9 witness: a `.zip` upload is rejected although `accept` lists it. -/
theorem upload_rejects_unlisted_extensions_witness :
    handleFileUpload ⟨"backup.zip", [7], none⟩ true true =
      ⟨some "Only .json (VSCode settings) and .vsix files are allowed.", none, false⟩ ∧
      ".zip".data ∈ splitChars ',' fileInputAccept.data :=
  upload_rejects_unlisted_extensions ⟨"backup.zip", [7], none⟩ true true
    (by decide) (by decide)

/-- C10: when the storage upload fails, `handleFileUpload` never attempts
the `files`-table insert, and in every run that reached storage it set the
upload-failure message; a database record is created only after a
successful storage upload. -/
theorem upload_insert_requires_storage_success (f : UploadFile) (insertOk : Bool) :
    (handleFileUpload f false insertOk).insertAttempt = false ∧
    ((handleFileUpload f false insertOk).storageAttempt = none ∨
      (handleFileUpload f false insertOk).uploadError = some "Failed to upload file.") := by
  obtain ⟨name, content, parsed⟩ := f
  cases parsed <;> cases insertOk <;>
    by_cases h1 : fileExt name = "json" <;> by_cases h2 : fileExt name = "vsix" <;>
      simp [handleFileUpload, uploadAndRecord, h1, h2] <;> (split <;> simp)

/-- C2 counterexample: the dashboard does reject a Snapshot file based on
its contents — a well-formed exported snapshot (shown decodable) whose
settings lack the dashboard's three heuristic keys is refused, with no
storage upload performed. -/
theorem upload_rejects_opaque_blob :
    decodeDoc plainSnapshotDoc =
      .ok ⟨⟨"2024-01-01T00:00:00", "Linux", "1.0.0"⟩,
        some ["ms-python.python"], some [("editor.tabSize", .num 2)]⟩ ∧
    handleFileUpload ⟨"snapshot.json", [1, 2], some plainSnapshotDoc⟩ true true =
      ⟨some "Invalid VSCode settings.json file.", none, false⟩ :=
  ⟨rfl, rfl⟩

/-- C2 amended: whatever blob the upload path hands to storage is the
uploaded file itself, byte-for-byte — the dashboard never alters content,
though it may reject a file based on extension or JSON validation. -/
theorem upload_preserves_blob (f : UploadFile) (storageOk insertOk : Bool) :
    (handleFileUpload f storageOk insertOk).storageAttempt = none ∨
    (handleFileUpload f storageOk insertOk).storageAttempt = some f := by
  obtain ⟨name, content, parsed⟩ := f
  cases parsed <;> cases storageOk <;> cases insertOk <;>
    by_cases h1 : fileExt name = "json" <;> by_cases h2 : fileExt name = "vsix" <;>
      simp [handleFileUpload, uploadAndRecord, h1, h2] <;> (split <;> simp)

/-! ## Claims about the Import Engine (modelled from the spec) -/

lemma overwriteWith_fst (snap : List (String × JsonVal)) (p : String × JsonVal) :
    (overwriteWith snap p).1 = p.1 := by
  unfold overwriteWith
  split <;> rfl

lemma mergeSettings_eq (live snap : List (String × JsonVal)) :
    mergeSettings live snap =
      live.map (overwriteWith snap)
        ++ snap.filter (fun q => !live.any (fun p => p.1 = q.1)) := rfl

lemma lookupField_append (a b : List (String × JsonVal)) (k : String) :
    lookupField (a ++ b) k = (lookupField a k).or (lookupField b k) := by
  induction a with
  | nil => simp [lookupField]
  | cons p t ih =>
    by_cases h : p.1 = k
    · simp [lookupField, List.find?_cons, h]
    · simp only [lookupField, List.cons_append, List.find?_cons, h]
      simpa [lookupField, h] using ih

lemma lookupField_map_overwrite (live snap : List (String × JsonVal)) (k : String) :
    lookupField (live.map (overwriteWith snap)) k =
      (live.find? (fun p => p.1 = k)).map (fun p => (overwriteWith snap p).2) := by
  unfold lookupField
  rw [List.find?_map]
  have hcomp : ((fun p : String × JsonVal => decide (p.1 = k)) ∘ overwriteWith snap) =
      (fun p : String × JsonVal => decide (p.1 = k)) := by
    funext p
    simp [Function.comp, overwriteWith_fst]
  rw [hcomp, Option.map_map]
  rfl

lemma find?_filter_not_in_live (live snap : List (String × JsonVal)) (k : String)
    (h : live.find? (fun p => p.1 = k) = none) :
    (snap.filter (fun q => !live.any (fun p => p.1 = q.1))).find?
        (fun q => q.1 = k) =
      snap.find? (fun q => q.1 = k) := by
  have hany : live.any (fun p => p.1 = k) = false := by
    rw [List.any_eq_false]
    intro p hp
    have := List.find?_eq_none.1 h p hp
    simpa using this
  induction snap with
  | nil => rfl
  | cons q t ih =>
    by_cases hq : q.1 = k
    · have hpred : (!live.any fun p => decide (p.1 = q.1)) = true := by
        rw [hq]; simp [hany]
      rw [List.filter_cons, if_pos hpred]
      rw [List.find?_cons_of_pos _ (by simpa using hq),
        List.find?_cons_of_pos _ (by simpa using hq)]
    · rw [List.filter_cons]
      by_cases hpred : (!live.any fun p => decide (p.1 = q.1)) = true
      · rw [if_pos hpred, List.find?_cons_of_neg _ (by simpa using hq),
          List.find?_cons_of_neg _ (by simpa using hq)]
        exact ih
      · rw [if_neg hpred, List.find?_cons_of_neg _ (by simpa using hq)]
        exact ih

lemma lookupField_merge (live snap : List (String × JsonVal)) (k : String) :
    lookupField (mergeSettings live snap) k =
      (lookupField snap k).or (lookupField live k) := by
  rw [mergeSettings_eq, lookupField_append, lookupField_map_overwrite]
  rcases hl : live.find? (fun p => p.1 = k) with _ | p
  · rw [hl]
    simp only [Option.map_none', Option.none_or]
    unfold lookupField
    rw [find?_filter_not_in_live live snap k hl]
    cases snap.find? (fun q => q.1 = k) <;> simp [hl]
  · rw [hl]
    have hpk : p.1 = k := by simpa using List.find?_some hl
    simp only [Option.map_some']
    rcases hs : snap.find? (fun q => decide (q.1 = k)) with _ | q
    · simp [lookupField, overwriteWith, hpk, hs, hl]
    · simp [lookupField, overwriteWith, hpk, hs, hl]

lemma find?_self_of_nodup (S : List (String × JsonVal)) (p : String × JsonVal)
    (h : (S.map Prod.fst).Nodup) (hp : p ∈ S) :
    S.find? (fun q => q.1 = p.1) = some p := by
  induction S with
  | nil => cases hp
  | cons a t ih =>
    rcases List.mem_cons.1 hp with rfl | hpt
    · simp [List.find?_cons]
    · have ha : a.1 ≠ p.1 := by
        intro he
        have : p.1 ∈ t.map Prod.fst := List.mem_map_of_mem Prod.fst hpt
        rw [List.map_cons, List.nodup_cons] at h
        exact h.1 (he ▸ this)
      rw [List.find?_cons_of_neg _ (by simpa using ha)]
      exact ih (by rw [List.map_cons, List.nodup_cons] at h; exact h.2) hpt

lemma overwriteWith_idem (S : List (String × JsonVal)) (p : String × JsonVal) :
    overwriteWith S (overwriteWith S p) = overwriteWith S p := by
  unfold overwriteWith
  rcases h : S.find? (fun q => q.1 = p.1) with _ | q <;> simp [h]

lemma overwriteWith_mem_nodup (S : List (String × JsonVal)) (p : String × JsonVal)
    (h : (S.map Prod.fst).Nodup) (hp : p ∈ S) : overwriteWith S p = p := by
  unfold overwriteWith
  rw [find?_self_of_nodup S p h hp]

lemma mergeSettings_idem (L S : List (String × JsonVal))
    (h : (S.map Prod.fst).Nodup) :
    mergeSettings (mergeSettings L S) S = mergeSettings L S := by
  have hfix : ∀ p ∈ mergeSettings L S, overwriteWith S p = p := by
    intro p hp
    rw [mergeSettings_eq, List.mem_append] at hp
    rcases hp with hA | hB
    · obtain ⟨l, -, rfl⟩ := List.mem_map.1 hA
      exact overwriteWith_idem S l
    · exact overwriteWith_mem_nodup S p h (List.mem_of_mem_filter hB)
  have hmap : (mergeSettings L S).map (overwriteWith S) = mergeSettings L S := by
    rw [List.map_congr_left hfix]
    exact List.map_id _
  have hfilter : S.filter (fun q => !(mergeSettings L S).any (fun p => p.1 = q.1)) = [] := by
    rw [List.filter_eq_nil_iff]
    intro q hq
    suffices hany : (mergeSettings L S).any (fun p => p.1 = q.1) = true by simp [hany]
    rw [List.any_eq_true]
    rcases hL : L.any (fun p => p.1 = q.1) with _ | _
    · refine ⟨q, ?_, by simp⟩
      rw [mergeSettings_eq, List.mem_append]
      right
      exact List.mem_filter.2 ⟨hq, by simp [hL]⟩
    · obtain ⟨l, hl, hlk⟩ := List.any_eq_true.1 hL
      refine ⟨overwriteWith S l, ?_, ?_⟩
      · rw [mergeSettings_eq, List.mem_append]
        exact Or.inl (List.mem_map_of_mem _ hl)
      · simpa [overwriteWith_fst] using hlk
  calc mergeSettings (mergeSettings L S) S
      = (mergeSettings L S).map (overwriteWith S)
          ++ S.filter (fun q => !(mergeSettings L S).any (fun p => p.1 = q.1)) :=
        mergeSettings_eq _ _
    _ = mergeSettings L S ++ [] := by rw [hmap, hfilter]
    _ = mergeSettings L S := List.append_nil _

lemma mergeSettings_nil (snap : List (String × JsonVal)) :
    mergeSettings [] snap = snap := by
  simp [mergeSettings]

/-- C3: the `SettingsApply` merge is the shallow overwrite — looking up any
key in the merged file gives the snapshot's value when the snapshot carries
the key and the live value otherwise (so no keys beyond the union appear);
a missing live file yields exactly the snapshot's settings; and the spec's
concrete example merges as stated. -/
theorem settings_merge_shallow_overwrite :
    (∀ (live snap : List (String × JsonVal)) (k : String),
      lookupField (settingsApply (some live) snap) k =
        (lookupField snap k).or (lookupField live k)) ∧
    (∀ snap : List (String × JsonVal), settingsApply none snap = snap) ∧
    settingsApply (some [("a", JsonVal.num 1), ("b", JsonVal.num 2)])
        [("b", JsonVal.num 3), ("c", JsonVal.num 4)] =
      [("a", JsonVal.num 1), ("b", JsonVal.num 3), ("c", JsonVal.num 4)] :=
  ⟨fun live snap k => lookupField_merge live snap k, fun _ => rfl, rfl⟩

/-- C6: applying the same settings mapping twice in succession to a live
settings file yields the same final file as applying it once (snapshot
setting keys are unique, per the data-model invariant). -/
theorem settings_merge_idempotent (live : Option (List (String × JsonVal)))
    (snap : List (String × JsonVal)) (h : (snap.map Prod.fst).Nodup) :
    settingsApply (some (settingsApply live snap)) snap = settingsApply live snap := by
  cases live with
  | some l => exact mergeSettings_idem l snap h
  | none =>
    show mergeSettings snap snap = snap
    have h0 : mergeSettings [] snap = snap := mergeSettings_nil snap
    calc mergeSettings snap snap
        = mergeSettings (mergeSettings [] snap) snap := by rw [h0]
      _ = mergeSettings [] snap := mergeSettings_idem [] snap h
      _ = snap := h0

/-- C6 witness: idempotence at the spec's concrete example. -/
theorem settings_merge_idempotent_witness :
    settingsApply
        (some (settingsApply (some [("a", JsonVal.num 1), ("b", JsonVal.num 2)])
          [("b", JsonVal.num 3), ("c", JsonVal.num 4)]))
        [("b", JsonVal.num 3), ("c", JsonVal.num 4)] =
      settingsApply (some [("a", JsonVal.num 1), ("b", JsonVal.num 2)])
        [("b", JsonVal.num 3), ("c", JsonVal.num 4)] :=
  settings_merge_idempotent (some [("a", JsonVal.num 1), ("b", JsonVal.num 2)])
    [("b", JsonVal.num 3), ("c", JsonVal.num 4)] (by decide)

/-- C5: the `ExtensionInstall` loop issues one CLI invocation per
identifier in snapshot order, records success or failure (with reason) for
every identifier, and a failure never aborts the remaining installs; in
particular for `[X, Y, Z]` with `Y` failing, `X` and `Z` succeed and `Y` is
recorded failed. -/
theorem installAll_records_every_extension :
    (∀ (cli : String → Bool) (ids : List String),
      installAll cli ids = ids.map (fun id =>
        if cli id then ⟨id, true, none⟩ else ⟨id, false, some "install failed"⟩) ∧
      (installAll cli ids).map (fun r => r.identifier) = ids) ∧
    installAll (fun s => !(s = "Y")) ["X", "Y", "Z"] =
      [⟨"X", true, none⟩, ⟨"Y", false, some "install failed"⟩, ⟨"Z", true, none⟩] := by
  have hmap : ∀ (cli : String → Bool) (ids : List String),
      installAll cli ids = ids.map (fun id =>
        if cli id then ⟨id, true, none⟩ else ⟨id, false, some "install failed"⟩) := by
    intro cli ids
    induction ids with
    | nil => rfl
    | cons a t ih => simp [installAll, ih]
  refine ⟨fun cli ids => ⟨hmap cli ids, ?_⟩, rfl⟩
  rw [hmap]
  induction ids with
  | nil => rfl
  | cons a t ih => by_cases h : cli a <;> simp_all

/-! ## Claims about the Snapshot Codec (modelled from the spec) -/

lemma decodeStrList_map (es : List String) :
    decodeStrList (es.map JsonVal.str) = .ok es := by
  induction es with
  | nil => rfl
  | cons a t ih => simp [decodeStrList, ih, Except.map]

lemma decodeDoc_encodeDoc (s : Snapshot) : decodeDoc (encodeDoc s) = .ok s := by
  obtain ⟨⟨ca, sys, ver⟩, exts, sets⟩ := s
  cases exts <;> cases sets <;>
    (simp [encodeDoc, decodeDoc, lookupField, decodeStr, decodeStrList_map,
      List.find?_cons, Except.map]
     rfl)

lemma exceptBind_ok {α β : Type} (a : α) (f : α → Except CodecError β) :
    (Except.ok a >>= f) = f a := rfl

lemma exceptBind_error {α β : Type} (e : CodecError) (f : α → Except CodecError β) :
    ((Except.error e : Except CodecError α) >>= f) = Except.error e := rfl

lemma decodeStrList_cases (xs : List JsonVal) :
    (decodeStrList xs = .error .schemaError ∧ xs.all isStrVal = false) ∨
    (∃ es, decodeStrList xs = .ok es ∧ xs.all isStrVal = true) := by
  induction xs with
  | nil => exact Or.inr ⟨[], rfl, rfl⟩
  | cons a t ih =>
    cases a with
    | str v =>
      rcases ih with ⟨he, ha⟩ | ⟨es, he, ha⟩
      · exact Or.inl ⟨by simp [decodeStrList, he, Except.map],
          by simp [List.all_cons, isStrVal, ha]⟩
      · exact Or.inr ⟨v :: es, by simp [decodeStrList, he, Except.map],
          by simp [List.all_cons, isStrVal, ha]⟩
    | null => exact Or.inl ⟨rfl, by simp [List.all_cons, isStrVal]⟩
    | bool b => exact Or.inl ⟨rfl, by simp [List.all_cons, isStrVal]⟩
    | num n => exact Or.inl ⟨rfl, by simp [List.all_cons, isStrVal]⟩
    | arr ys => exact Or.inl ⟨rfl, by simp [List.all_cons, isStrVal]⟩
    | obj fs => exact Or.inl ⟨rfl, by simp [List.all_cons, isStrVal]⟩

lemma decodeDoc_cases (d : JsonVal) :
    (decodeDoc d = .error .schemaError ∧ schemaOk d = false) ∨
    (∃ s, decodeDoc d = .ok s ∧ schemaOk d = true) := by
  cases d with
  | obj fs =>
    rcases hm : lookupField fs "metadata" with _ | mv
    · exact Or.inl ⟨by simp [decodeDoc, hm], by simp [schemaOk, hm]⟩
    · cases mv with
      | obj ms =>
        rcases hca : lookupField ms "created_at" with _ | cav
        · exact Or.inl ⟨by simp [decodeDoc, hm, decodeStr, hca, exceptBind_error],
            by simp [schemaOk, hm, hca]⟩
        · cases cav with
          | str ca =>
            rcases hsy : lookupField ms "system" with _ | syv
            · exact Or.inl ⟨by simp [decodeDoc, hm, decodeStr, hca, hsy,
                  exceptBind_ok, exceptBind_error],
                by simp [schemaOk, hm, hca, hsy]⟩
            · cases syv with
              | str sy =>
                rcases hvv : lookupField ms "vscode_sync_version" with _ | vv
                · exact Or.inl ⟨by simp [decodeDoc, hm, decodeStr, hca, hsy, hvv,
                      exceptBind_ok, exceptBind_error],
                    by simp [schemaOk, hm, hca, hsy, hvv]⟩
                · cases vv with
                  | str ver =>
                    rcases he : lookupField fs "extensions" with _ | ev
                    · rcases hs : lookupField fs "settings" with _ | sv
                      · exact Or.inr ⟨⟨⟨ca, sy, ver⟩, none, none⟩,
                          by simp [decodeDoc, hm, decodeStr, hca, hsy, hvv, he, hs,
                            exceptBind_ok],
                          by simp [schemaOk, hm, hca, hsy, hvv, he, hs]⟩
                      · cases sv with
                        | obj st => exact Or.inr ⟨⟨⟨ca, sy, ver⟩, none, some st⟩,
                            by simp [decodeDoc, hm, decodeStr, hca, hsy, hvv, he, hs,
                              exceptBind_ok],
                            by simp [schemaOk, hm, hca, hsy, hvv, he, hs]⟩
                        | null => exact Or.inl ⟨by simp [decodeDoc, hm, decodeStr, hca,
                              hsy, hvv, he, hs, exceptBind_ok, exceptBind_error],
                            by simp [schemaOk, hm, hca, hsy, hvv, he, hs]⟩
                        | bool b => exact Or.inl ⟨by simp [decodeDoc, hm, decodeStr, hca,
                              hsy, hvv, he, hs, exceptBind_ok, exceptBind_error],
                            by simp [schemaOk, hm, hca, hsy, hvv, he, hs]⟩
                        | num n => exact Or.inl ⟨by simp [decodeDoc, hm, decodeStr, hca,
                              hsy, hvv, he, hs, exceptBind_ok, exceptBind_error],
                            by simp [schemaOk, hm, hca, hsy, hvv, he, hs]⟩
                        | str s2 => exact Or.inl ⟨by simp [decodeDoc, hm, decodeStr, hca,
                              hsy, hvv, he, hs, exceptBind_ok, exceptBind_error],
                            by simp [schemaOk, hm, hca, hsy, hvv, he, hs]⟩
                        | arr a2 => exact Or.inl ⟨by simp [decodeDoc, hm, decodeStr, hca,
                              hsy, hvv, he, hs, exceptBind_ok, exceptBind_error],
                            by simp [schemaOk, hm, hca, hsy, hvv, he, hs]⟩
                    · cases ev with
                      | arr xs =>
                        rcases decodeStrList_cases xs with ⟨he2, ha⟩ | ⟨es, he2, ha⟩
                        · exact Or.inl ⟨by simp [decodeDoc, hm, decodeStr, hca, hsy, hvv,
                              he, he2, Except.map, exceptBind_ok, exceptBind_error],
                            by simp [schemaOk, hm, hca, hsy, hvv, he, ha]⟩
                        · rcases hs : lookupField fs "settings" with _ | sv
                          · exact Or.inr ⟨⟨⟨ca, sy, ver⟩, some es, none⟩,
                              by simp [decodeDoc, hm, decodeStr, hca, hsy, hvv, he, he2,
                                hs, Except.map, exceptBind_ok],
                              by simp [schemaOk, hm, hca, hsy, hvv, he, ha, hs]⟩
                          · cases sv with
                            | obj st => exact Or.inr ⟨⟨⟨ca, sy, ver⟩, some es, some st⟩,
                                by simp [decodeDoc, hm, decodeStr, hca, hsy, hvv, he, he2,
                                  hs, Except.map, exceptBind_ok],
                                by simp [schemaOk, hm, hca, hsy, hvv, he, ha, hs]⟩
                            | null => exact Or.inl ⟨by simp [decodeDoc, hm, decodeStr, hca,
                                  hsy, hvv, he, he2, hs, Except.map, exceptBind_ok,
                                  exceptBind_error],
                                by simp [schemaOk, hm, hca, hsy, hvv, he, hs]⟩
                            | bool b => exact Or.inl ⟨by simp [decodeDoc, hm, decodeStr, hca,
                                  hsy, hvv, he, he2, hs, Except.map, exceptBind_ok,
                                  exceptBind_error],
                                by simp [schemaOk, hm, hca, hsy, hvv, he, hs]⟩
                            | num n => exact Or.inl ⟨by simp [decodeDoc, hm, decodeStr, hca,
                                  hsy, hvv, he, he2, hs, Except.map, exceptBind_ok,
                                  exceptBind_error],
                                by simp [schemaOk, hm, hca, hsy, hvv, he, hs]⟩
                            | str s2 => exact Or.inl ⟨by simp [decodeDoc, hm, decodeStr, hca,
                                  hsy, hvv, he, he2, hs, Except.map, exceptBind_ok,
                                  exceptBind_error],
                                by simp [schemaOk, hm, hca, hsy, hvv, he, hs]⟩
                            | arr a2 => exact Or.inl ⟨by simp [decodeDoc, hm, decodeStr, hca,
                                  hsy, hvv, he, he2, hs, Except.map, exceptBind_ok,
                                  exceptBind_error],
                                by simp [schemaOk, hm, hca, hsy, hvv, he, hs]⟩
                      | null => exact Or.inl ⟨by simp [decodeDoc, hm, decodeStr, hca, hsy,
                            hvv, he, exceptBind_ok, exceptBind_error],
                          by simp [schemaOk, hm, hca, hsy, hvv, he]⟩
                      | bool b => exact Or.inl ⟨by simp [decodeDoc, hm, decodeStr, hca, hsy,
                            hvv, he, exceptBind_ok, exceptBind_error],
                          by simp [schemaOk, hm, hca, hsy, hvv, he]⟩
                      | num n => exact Or.inl ⟨by simp [decodeDoc, hm, decodeStr, hca, hsy,
                            hvv, he, exceptBind_ok, exceptBind_error],
                          by simp [schemaOk, hm, hca, hsy, hvv, he]⟩
                      | str s2 => exact Or.inl ⟨by simp [decodeDoc, hm, decodeStr, hca, hsy,
                            hvv, he, exceptBind_ok, exceptBind_error],
                          by simp [schemaOk, hm, hca, hsy, hvv, he]⟩
                      | obj o2 => exact Or.inl ⟨by simp [decodeDoc, hm, decodeStr, hca, hsy,
                            hvv, he, exceptBind_ok, exceptBind_error],
                          by simp [schemaOk, hm, hca, hsy, hvv, he]⟩
                  | null => exact Or.inl ⟨by simp [decodeDoc, hm, decodeStr, hca, hsy, hvv,
                        exceptBind_ok, exceptBind_error],
                      by simp [schemaOk, hm, hca, hsy, hvv]⟩
                  | bool b => exact Or.inl ⟨by simp [decodeDoc, hm, decodeStr, hca, hsy, hvv,
                        exceptBind_ok, exceptBind_error],
                      by simp [schemaOk, hm, hca, hsy, hvv]⟩
                  | num n => exact Or.inl ⟨by simp [decodeDoc, hm, decodeStr, hca, hsy, hvv,
                        exceptBind_ok, exceptBind_error],
                      by simp [schemaOk, hm, hca, hsy, hvv]⟩
                  | arr a2 => exact Or.inl ⟨by simp [decodeDoc, hm, decodeStr, hca, hsy, hvv,
                        exceptBind_ok, exceptBind_error],
                      by simp [schemaOk, hm, hca, hsy, hvv]⟩
                  | obj o2 => exact Or.inl ⟨by simp [decodeDoc, hm, decodeStr, hca, hsy, hvv,
                        exceptBind_ok, exceptBind_error],
                      by simp [schemaOk, hm, hca, hsy, hvv]⟩
              | null => exact Or.inl ⟨by simp [decodeDoc, hm, decodeStr, hca, hsy,
                    exceptBind_ok, exceptBind_error],
                  by simp [schemaOk, hm, hca, hsy]⟩
              | bool b => exact Or.inl ⟨by simp [decodeDoc, hm, decodeStr, hca, hsy,
                    exceptBind_ok, exceptBind_error],
                  by simp [schemaOk, hm, hca, hsy]⟩
              | num n => exact Or.inl ⟨by simp [decodeDoc, hm, decodeStr, hca, hsy,
                    exceptBind_ok, exceptBind_error],
                  by simp [schemaOk, hm, hca, hsy]⟩
              | arr a2 => exact Or.inl ⟨by simp [decodeDoc, hm, decodeStr, hca, hsy,
                    exceptBind_ok, exceptBind_error],
                  by simp [schemaOk, hm, hca, hsy]⟩
              | obj o2 => exact Or.inl ⟨by simp [decodeDoc, hm, decodeStr, hca, hsy,
                    exceptBind_ok, exceptBind_error],
                  by simp [schemaOk, hm, hca, hsy]⟩
          | null => exact Or.inl ⟨by simp [decodeDoc, hm, decodeStr, hca, exceptBind_error],
              by simp [schemaOk, hm, hca]⟩
          | bool b => exact Or.inl ⟨by simp [decodeDoc, hm, decodeStr, hca, exceptBind_error],
              by simp [schemaOk, hm, hca]⟩
          | num n => exact Or.inl ⟨by simp [decodeDoc, hm, decodeStr, hca, exceptBind_error],
              by simp [schemaOk, hm, hca]⟩
          | arr a2 => exact Or.inl ⟨by simp [decodeDoc, hm, decodeStr, hca, exceptBind_error],
              by simp [schemaOk, hm, hca]⟩
          | obj o2 => exact Or.inl ⟨by simp [decodeDoc, hm, decodeStr, hca, exceptBind_error],
              by simp [schemaOk, hm, hca]⟩
      | null => exact Or.inl ⟨by simp [decodeDoc, hm], by simp [schemaOk, hm]⟩
      | bool b => exact Or.inl ⟨by simp [decodeDoc, hm], by simp [schemaOk, hm]⟩
      | num n => exact Or.inl ⟨by simp [decodeDoc, hm], by simp [schemaOk, hm]⟩
      | str s2 => exact Or.inl ⟨by simp [decodeDoc, hm], by simp [schemaOk, hm]⟩
      | arr a2 => exact Or.inl ⟨by simp [decodeDoc, hm], by simp [schemaOk, hm]⟩
  | null => exact Or.inl ⟨rfl, rfl⟩
  | bool b => exact Or.inl ⟨rfl, rfl⟩
  | num n => exact Or.inl ⟨rfl, rfl⟩
  | str s2 => exact Or.inl ⟨rfl, rfl⟩
  | arr a2 => exact Or.inl ⟨rfl, rfl⟩


lemma lookupField_append_extra (fs : List (String × JsonVal)) (k : String)
    (v : JsonVal) (k' : String) (hk : k ≠ k') :
    lookupField (fs ++ [(k, v)]) k' = lookupField fs k' := by
  rw [lookupField_append]
  have h0 : lookupField [(k, v)] k' = none := by
    simp [lookupField, List.find?_cons, hk]
  rw [h0]
  cases lookupField fs k' <;> rfl

/-- C7: decoding a standalone document fails with `FormatError` exactly
when the text is not valid JSON; it fails with `SchemaError` exactly when a
required top-level key is absent or of the wrong type; it succeeds exactly
when the required keys are well-typed; and an unknown extra top-level key
never changes the outcome. -/
theorem decode_error_taxonomy :
    (∀ p : Option JsonVal, decode (.text p) = .error .formatError ↔ p = none) ∧
    (∀ d : JsonVal, decode (.text (some d)) = .error .schemaError ↔ schemaOk d = false) ∧
    (∀ d : JsonVal, (∃ s, decode (.text (some d)) = .ok s) ↔ schemaOk d = true) ∧
    (∀ (fs : List (String × JsonVal)) (k : String) (v : JsonVal),
      k ≠ "metadata" → k ≠ "extensions" → k ≠ "settings" →
      decodeDoc (.obj (fs ++ [(k, v)])) = decodeDoc (.obj fs)) := by
  refine ⟨?_, ?_, ?_, ?_⟩
  · intro p
    cases p with
    | none => simp [decode]
    | some d =>
      simp only [decode, Option.some_ne_none, iff_false]
      rcases decodeDoc_cases d with ⟨he, -⟩ | ⟨s, hok, -⟩
      · simp [he]
      · simp [hok]
  · intro d
    rcases decodeDoc_cases d with ⟨he, hsc⟩ | ⟨s, hok, hsc⟩
    · simp [decode, he, hsc]
    · simp [decode, hok, hsc]
  · intro d
    rcases decodeDoc_cases d with ⟨he, hsc⟩ | ⟨s, hok, hsc⟩
    · simp [decode, he, hsc]
    · simp [decode, hok, hsc]
  · intro fs k v h1 h2 h3
    have e1 := lookupField_append_extra fs k v "metadata" h1
    have e2 := lookupField_append_extra fs k v "extensions" h2
    have e3 := lookupField_append_extra fs k v "settings" h3
    simp only [decodeDoc, e1, e2, e3]

/-- C7 witness: appending an unknown `future_field` key leaves decoding of
a minimal valid document unchanged. -/
theorem decode_error_taxonomy_witness :
    decodeDoc (.obj
        ([("metadata", .obj [("created_at", .str "t"), ("system", .str "s"),
            ("vscode_sync_version", .str "v")])]
          ++ [("future_field", .num 9)])) =
      decodeDoc (.obj
        [("metadata", .obj [("created_at", .str "t"), ("system", .str "s"),
           ("vscode_sync_version", .str "v")])]) :=
  decode_error_taxonomy.2.2.2
    [("metadata", .obj [("created_at", .str "t"), ("system", .str "s"),
       ("vscode_sync_version", .str "v")])]
    "future_field" (.num 9) (by decide) (by decide) (by decide)

/-- C1: for a Snapshot with non-empty extensions and non-empty settings,
decoding the result of encoding reproduces the Snapshot exactly —
extensions sequence and settings mapping key-for-key, value-for-value — in
both the standalone-JSON and the ZIP packaging (the ZIP decodes through its
`config.json` entry identically to the standalone document). -/
theorem snapshot_roundtrip (s : Snapshot) (es : List String)
    (st : List (String × JsonVal)) (raw : Option (String × Option JsonVal))
    (hes : s.extensions = some es) (hne : es ≠ [])
    (hst : s.settings = some st) (hstne : st ≠ []) :
    decode (.text (some (encodeDoc s))) = .ok s ∧
    decode (.zip (encodeZip s raw)) = .ok s := by
  refine ⟨decodeDoc_encodeDoc s, ?_⟩
  simp [decode, encodeZip, List.find?_cons, decodeDoc_encodeDoc]

/-- C1 witness: round trip at a concrete one-extension, one-setting
snapshot, in both packagings. -/
theorem snapshot_roundtrip_witness :
    decode (.text (some (encodeDoc ⟨⟨"2024-02-02", "Windows", "1.0.0"⟩,
        some ["pub.ext"], some [("editor.fontSize", JsonVal.num 14)]⟩))) =
      .ok ⟨⟨"2024-02-02", "Windows", "1.0.0"⟩, some ["pub.ext"],
        some [("editor.fontSize", JsonVal.num 14)]⟩ ∧
    decode (.zip (encodeZip ⟨⟨"2024-02-02", "Windows", "1.0.0"⟩, some ["pub.ext"],
        some [("editor.fontSize", JsonVal.num 14)]⟩ none)) =
      .ok ⟨⟨"2024-02-02", "Windows", "1.0.0"⟩, some ["pub.ext"],
        some [("editor.fontSize", JsonVal.num 14)]⟩ :=
  snapshot_roundtrip _ ["pub.ext"] [("editor.fontSize", JsonVal.num 14)] none rfl
    (by decide) rfl (List.cons_ne_nil _ _)

/-- C4: when backup is requested and a live settings file exists — if the
backup copy succeeds, the completed import leaves a backup whose content is
the pre-import live content and no live-file write precedes the backup
write in the trace; if the backup copy fails, the import aborts with the
live settings file (and everything else) untouched. -/
theorem backup_before_mutate (req : ImportRequest) (fs : FS)
    (cli : String → Bool) (c : List (String × JsonVal))
    (hb : req.backup = true) (hl : fs.live = some c) :
    ((runImport req fs true cli).fs.backup = some c ∧
      backupPrecedesMutation (runImport req fs true cli).events = true ∧
      (runImport req fs true cli).failed = false) ∧
    ((runImport req fs false cli).failed = true ∧
      (runImport req fs false cli).fs.live = some c ∧
      (runImport req fs false cli).fs.backup = fs.backup ∧
      (runImport req fs false cli).events = []) := by
  have hcond : (req.backup && fs.live.isSome) = true := by simp [hb, hl]
  constructor
  · simp only [runImport, hcond, if_true]
    rcases hset : req.snapshot.settings with _ | st <;>
      by_cases ha : req.applySettings <;>
        simp [importAfterBackup, hset, ha, backupPrecedesMutation, hl]
  · simp [runImport, hcond, hl, hb]

/-- C4 witness: a concrete default import over an existing live file. -/
theorem backup_before_mutate_witness :
    ((runImport ⟨true, true, true, ⟨⟨"t", "linux", "1.0"⟩, some ["x.y"],
          some [("k", JsonVal.num 1)]⟩⟩ ⟨some [("a", JsonVal.num 0)], none⟩ true
          (fun _ => true)).fs.backup = some [("a", JsonVal.num 0)] ∧
      backupPrecedesMutation (runImport ⟨true, true, true, ⟨⟨"t", "linux", "1.0"⟩,
          some ["x.y"], some [("k", JsonVal.num 1)]⟩⟩
          ⟨some [("a", JsonVal.num 0)], none⟩ true (fun _ => true)).events = true ∧
      (runImport ⟨true, true, true, ⟨⟨"t", "linux", "1.0"⟩, some ["x.y"],
          some [("k", JsonVal.num 1)]⟩⟩ ⟨some [("a", JsonVal.num 0)], none⟩ true
          (fun _ => true)).failed = false) ∧
    ((runImport ⟨true, true, true, ⟨⟨"t", "linux", "1.0"⟩, some ["x.y"],
          some [("k", JsonVal.num 1)]⟩⟩ ⟨some [("a", JsonVal.num 0)], none⟩ false
          (fun _ => true)).failed = true ∧
      (runImport ⟨true, true, true, ⟨⟨"t", "linux", "1.0"⟩, some ["x.y"],
          some [("k", JsonVal.num 1)]⟩⟩ ⟨some [("a", JsonVal.num 0)], none⟩ false
          (fun _ => true)).fs.live = some [("a", JsonVal.num 0)] ∧
      (runImport ⟨true, true, true, ⟨⟨"t", "linux", "1.0"⟩, some ["x.y"],
          some [("k", JsonVal.num 1)]⟩⟩ ⟨some [("a", JsonVal.num 0)], none⟩ false
          (fun _ => true)).fs.backup = (⟨some [("a", JsonVal.num 0)], none⟩ : FS).backup ∧
      (runImport ⟨true, true, true, ⟨⟨"t", "linux", "1.0"⟩, some ["x.y"],
          some [("k", JsonVal.num 1)]⟩⟩ ⟨some [("a", JsonVal.num 0)], none⟩ false
          (fun _ => true)).events = []) :=
  backup_before_mutate ⟨true, true, true, ⟨⟨"t", "linux", "1.0"⟩, some ["x.y"],
      some [("k", JsonVal.num 1)]⟩⟩ ⟨some [("a", JsonVal.num 0)], none⟩
    (fun _ => true) [("a", JsonVal.num 0)] rfl rfl
